import Mathlib

/-!
Shallow embedding of the eMRTD (electronic Machine Readable Travel Document)
client command code of src/client/src/cmdhfemrtd.c.

Bytes are modelled as natural numbers (values 0 .. 255) and byte buffers as
lists of naturals.  The DES / 3DES / SHA-1 primitives live in external
libraries (mbedtls, libpcrypto) and are not part of this repository, so every
function that uses them is parametrised over the corresponding block
operation; the theorems hold for every instantiation of those parameters.
-/

namespace Emrtd

/-- KENC derivation constant (cmdhfemrtd.c line 50). -/
def KENC_type : List Nat := [0x00, 0x00, 0x00, 0x01]

/-- KMAC derivation constant (cmdhfemrtd.c line 51). -/
def KMAC_type : List Nat := [0x00, 0x00, 0x00, 0x02]

/-- Embedding of pad_block (lines 293-305): copy the input and append
0x80 followed by zeros up to the next 8-byte boundary; when the input is
already block aligned a full extra block is appended (to_pad = 8). -/
def pad_block (input : List Nat) : List Nat :=
  input ++ 0x80 :: List.replicate (8 - input.length % 8 - 1) 0

/-- Split a byte list into consecutive 8-byte blocks (the view the
retail_mac chaining loop takes of the padded message). -/
def toBlocks (l : List Nat) : List (List Nat) :=
  if h : l = [] then []
  else l.take 8 :: toBlocks (l.drop 8)
termination_by l.length
decreasing_by
  have h1 : 0 < l.length := List.length_pos.mpr h
  simp only [List.length_drop]
  omega

/-- Byte-wise XOR of two blocks (the inner loop of retail_mac lines 329-331). -/
def xorBlock (a b : List Nat) : List Nat := List.zipWith (fun x y => x ^^^ y) a b

/-- Embedding of retail_mac (lines 307-343), ISO 9797-1 MAC algorithm 3,
parametrised over the single-DES block operations desE (des_encrypt_ecb) and
desD (des_decrypt_ecb).  Each memcpy of the 8-byte DES output is modelled by
List.take 8. -/
def retail_mac (desE desD : List Nat → List Nat → List Nat) (key input : List Nat) : List Nat :=
  let k0 := key.take 8
  let k1 := (key.drop 8).take 8
  let message := pad_block input
  let chain := (toBlocks message).foldl
    (fun intermediate block => (desE k0 (xorBlock intermediate block)).take 8)
    (List.replicate 8 0)
  (desE k0 ((desD k1 chain).take 8)).take 8

/-- Number of set bits of a natural number. -/
def popcount : Nat → Nat
  | 0 => 0
  | n + 1 => (n + 1) % 2 + popcount ((n + 1) / 2)
decreasing_by omega

/-- Embedding of one byte of mbedtls_des_key_set_parity: keep the upper
seven bits and set the least significant bit so that the byte has an odd
number of set bits (odd DES parity). -/
def set_parity_byte (b : Nat) : Nat :=
  2 * (b / 2) + (1 - popcount (b / 2) % 2)

/-- Embedding of emrtd_deskey (lines 345-366), parametrised over the SHA-1
hash: concatenate seed and 4-byte type constant, hash, force odd parity on
the first (length + 4) / 8 8-byte blocks, output the first length bytes. -/
def emrtd_deskey (sha1 : List Nat → List Nat) (seed type : List Nat) (length : Nat) :
    List Nat :=
  let data := seed.take length ++ type.take 4
  let key := sha1 data
  let nb := (length + 4) / 8
  let fixed := (key.take (8 * nb)).map set_parity_byte ++ key.drop (8 * nb)
  fixed.take length

/-- Embedding of emrtd_get_asn1_data_length (lines 214-233).  datainlen is
the length argument the C code receives (returned verbatim in the 0x80
workaround case); out-of-range reads yield 0 like a zeroed buffer. -/
def emrtd_get_asn1_data_length (datain : List Nat) (datainlen offset : Nat) : Nat :=
  if datain.getD offset 0 ≤ 0x7f then datain.getD offset 0
  else if datain.getD offset 0 = 0x80 then datainlen
  else if datain.getD offset 0 = 0x81 then datain.getD (offset + 1) 0
  else if datain.getD offset 0 = 0x82 then
    ((datain.getD (offset + 1) 0) <<< 8) ||| (datain.getD (offset + 2) 0)
  else if datain.getD offset 0 = 0x83 then
    (((datain.getD (offset + 1) 0) <<< 16) ||| ((datain.getD (offset + 2) 0) <<< 8)) |||
      (datain.getD (offset + 3) 0)
  else 0

/-- Embedding of emrtd_get_asn1_field_length (lines 235-249): the size of
the length field itself. -/
def emrtd_get_asn1_field_length (datain : List Nat) (datainlen offset : Nat) : Nat :=
  if datain.getD offset 0 ≤ 0x80 then 1
  else if datain.getD offset 0 = 0x81 then 2
  else if datain.getD offset 0 = 0x82 then 3
  else if datain.getD offset 0 = 0x83 then 4
  else 0

/-- Loop body of emrtd_bump_ssc (lines 397-409): the C loop runs the index
i from 7 down to 1 (the condition is i greater than 0, so byte 0 is never
touched); a 0xFF byte is zeroed and the loop continues leftwards, any other
byte is incremented and the function returns. -/
def bump_from : List Nat → Nat → List Nat
  | ssc, 0 => ssc
  | ssc, i + 1 =>
    if ssc.getD (i + 1) 0 = 0xFF then bump_from (ssc.set (i + 1) 0) i
    else ssc.set (i + 1) (ssc.getD (i + 1) 0 + 1)

/-- Embedding of emrtd_bump_ssc (lines 397-409). -/
def emrtd_bump_ssc (ssc : List Nat) : List Nat := bump_from ssc 7

/-- MRZ 7-3-1 weight sequence (line 193), indexed by character position. -/
def mrz_weight (i : Nat) : Int := if i % 3 = 0 then 7 else if i % 3 = 1 then 3 else 1

/-- Character value map of emrtd_calculate_check_digit (lines 199-208),
taking the character code as a natural number. -/
def mrz_char_value (d : Nat) : Int :=
  if 65 ≤ d ∧ d ≤ 90 then (d : Int) - 55
  else if 97 ≤ d ∧ d ≤ 122 then (d : Int) - 87
  else if d = 60 then 0
  else (d : Int) - 48

/-- Accumulated weighted sum of the check-digit loop (lines 198-210),
starting at character position i. -/
def check_digit_sum (data : List Nat) (i : Nat) : Int :=
  match data with
  | [] => 0
  | d :: rest => mrz_char_value d * mrz_weight i + check_digit_sum rest (i + 1)

/-- Embedding of emrtd_calculate_check_digit (lines 192-212).  The C
remainder operator truncates toward zero, which is Int.tmod. -/
def emrtd_calculate_check_digit (data : List Nat) : Int :=
  Int.tmod (check_digit_sum data 0) 10

/-- Embedding of emrtd_compare_check_digit (lines 1051-1062): the computed
digit plus 0x30 (reduced to a uint8_t) is compared with the expected MRZ
character. -/
def emrtd_compare_check_digit (datain : List Nat) (expected : Nat) : Bool :=
  (((emrtd_calculate_check_digit datain + 0x30) % 256).toNat) == expected

/-- Buffer that emrtd_check_cc (lines 416-434) MACs: the bumped SSC,
then the DO87 field when the response starts with tag 0x87, then the DO99
field when tag 0x99 follows. -/
def emrtd_check_cc_k (ssc rapdu : List Nat) : List Nat :=
  let length := if rapdu.getD 0 0 = 0x87 then 2 + rapdu.getD 1 0 else 0
  let length2 := if rapdu.getD length 0 = 0x99 then 2 + rapdu.getD (length + 1) 0 else 0
  ssc.take 8 ++ rapdu.take length ++ (rapdu.drop length).take length2

/-- Embedding of emrtd_check_cc (lines 411-443): bump the SSC (in place in
the C code, returned as the first component here), recompute the retail MAC
over the bumped SSC and the DO87 / DO99 prefix of the response, and compare
it with the trailing 8 bytes of the response. -/
def emrtd_check_cc (desE desD : List Nat → List Nat → List Nat)
    (ssc key rapdu : List Nat) (rapdulength : Nat) : List Nat × Bool :=
  let ssc1 := emrtd_bump_ssc ssc
  let cc := retail_mac desE desD key (emrtd_check_cc_k ssc1 rapdu)
  (ssc1, cc.take 8 == (rapdu.drop (rapdulength - 8)).take 8)

/-- Embedding of emrtd_secure_select_file (lines 453-513) restricted to its
observable state: the card exchange is abstracted by the optional response
(none models a failed exchange); on a successful exchange the function runs
emrtd_check_cc on the response.  The SSC is bumped once before the command
MAC is computed (line 483) and a second time inside emrtd_check_cc.
Returns the final SSC and the success flag. -/
def emrtd_secure_select_file (desE desD : List Nat → List Nat → List Nat)
    (exchange : Option (List Nat)) (kmac ssc : List Nat) : List Nat × Bool :=
  let ssc1 := emrtd_bump_ssc ssc
  match exchange with
  | none => (ssc1, false)
  | some resp =>
    let r := emrtd_check_cc desE desD ssc1 kmac resp resp.length
    (r.1, r.2)

/-- Embedding of _emrtd_secure_read_binary (lines 515-566) restricted to
its observable state: the card exchange is abstracted by the optional
response.  The SSC is bumped once before the command MAC is computed
(line 536) and a second time inside emrtd_check_cc (line 565).  Returns the
final SSC and the raw response when the MAC check passed (the C function
returns true and leaves the raw response in dataout), none otherwise. -/
def secure_read_binary (desE desD : List Nat → List Nat → List Nat)
    (exchange : Option (List Nat)) (kmac ssc : List Nat) :
    List Nat × Option (List Nat) :=
  let ssc1 := emrtd_bump_ssc ssc
  match exchange with
  | none => (ssc1, none)
  | some resp =>
    let r := emrtd_check_cc desE desD ssc1 kmac resp resp.length
    (r.1, if r.2 then some resp else none)

/-- Embedding of _emrtd_secure_read_binary_decrypt (lines 568-588),
parametrised over the 3DES-CBC decryption des3dec (applied with key kenc
and zero IV).  The caller buffer dataout is threaded explicitly: when the
inner secure read fails (exchange failure or MAC mismatch) the function
returns false at line 575 before any decryption, leaving dataout untouched;
otherwise the DO87 payload (bytes 3 .. 3 + cutat) is decrypted and its
first bytes_to_read bytes overwrite dataout. -/
def secure_read_binary_decrypt (desE desD : List Nat → List Nat → List Nat)
    (des3dec : List Nat → List Nat → List Nat) (exchange : Option (List Nat))
    (kenc kmac ssc : List Nat) (bytes_to_read : Nat) (dataout : List Nat) :
    List Nat × Bool × List Nat :=
  match secure_read_binary desE desD exchange kmac ssc with
  | (ssc1, none) => (ssc1, false, dataout)
  | (ssc1, some response) =>
    (ssc1, true,
      (des3dec kenc ((response.drop 3).take (response.getD 1 0 - 1))).take bytes_to_read)

/-- Chunk loop of emrtd_read_file (lines 612-632), parametrised over the
read operation readFn offset toread (either of the two read paths): while
readlen is positive, read min readlen 118 bytes at the current offset,
append the chunk, advance the offset by the chunk size; a failed read
aborts the whole loop. -/
def read_file_loop (readFn : Nat → Nat → Option (List Nat))
    (offset readlen : Nat) (acc : List Nat) : Option (List Nat) :=
  if h : readlen = 0 then some acc
  else
    match readFn offset (min readlen 118) with
    | none => none
    | some chunk =>
      read_file_loop readFn (offset + min readlen 118) (readlen - min readlen 118) (acc ++ chunk)
termination_by readlen
decreasing_by omega

/-- Requests issued by the chunk loop: the list of (offset, size) pairs,
in order. -/
def read_trace (offset readlen : Nat) : List (Nat × Nat) :=
  if readlen = 0 then []
  else (offset, min readlen 118) :: read_trace (offset + min readlen 118) (readlen - min readlen 118)
termination_by readlen
decreasing_by omega

/-- Embedding of emrtd_read_file (lines 590-637), parametrised over the
read operation: read 4 bytes at offset 0, derive the declared length from
the ASN.1 header, then read the remainder in chunks starting at offset 4.
readlen is computed in C int arithmetic (it may be negative when the
declared length is tiny, in which case the loop body never runs), hence the
Int detour. -/
def emrtd_read_file (readFn : Nat → Nat → Option (List Nat)) : Option (List Nat) :=
  match readFn 0 4 with
  | none => none
  | some response =>
    read_file_loop readFn 4
      (((emrtd_get_asn1_data_length response response.length 1 : Int) -
        (3 - (emrtd_get_asn1_field_length response response.length 1 : Int))).toNat) response

/-- Embedding of emrtd_lds_determine_tag_length (lines 639-644). -/
def emrtd_lds_determine_tag_length (tag : Nat) : Nat :=
  if tag = 0x5F ∨ tag = 0x7F then 2 else 1

/-- Element id length read by the scan loop at the current offset
(e_idlen, line 661). -/
def lds_e_idlen (datain : List Nat) (offset : Nat) : Nat :=
  emrtd_lds_determine_tag_length (datain.getD offset 0)

/-- Element data length read by the scan loop at the current offset
(e_datalen, line 664); the C call passes the pointer datain + offset and
the remaining size datainlen - offset. -/
def lds_e_datalen (datain : List Nat) (datainlen offset : Nat) : Nat :=
  emrtd_get_asn1_data_length (datain.drop offset) (datainlen - offset)
    (lds_e_idlen datain offset)

/-- Element length-field length read by the scan loop at the current
offset (e_fieldlen, line 667). -/
def lds_e_fieldlen (datain : List Nat) (datainlen offset : Nat) : Nat :=
  emrtd_get_asn1_field_length (datain.drop offset) (datainlen - offset)
    (lds_e_idlen datain offset)

/-- Offset advance of one scan iteration (line 684). -/
def lds_step (datain : List Nat) (datainlen offset : Nat) : Nat :=
  offset + lds_e_idlen datain offset + lds_e_datalen datain datainlen offset +
    lds_e_fieldlen datain datainlen offset

/-- Scan loop of emrtd_lds_get_data_by_tag (lines 658-687): walk the
top-level elements from offset, decoding each tag and length; a matching
element is skipped while skipcounter is below skiptagcount, otherwise its
value bytes are returned (subject to the datainlen > e_datalen bound
check); running past datainlen yields none. -/
def lds_scan (datain : List Nat) (datainlen : Nat) (tag1 tag2 : Nat)
    (twobytetag : Bool) (skiptagcount : Nat) (offset skipcounter : Nat) :
    Option (List Nat) :=
  if hoff : offset < datainlen then
    if datain.getD offset 0 = tag1 ∧ (twobytetag = false ∨ datain.getD (offset + 1) 0 = tag2) then
      if skipcounter < skiptagcount then
        lds_scan datain datainlen tag1 tag2 twobytetag skiptagcount
          (lds_step datain datainlen offset) (skipcounter + 1)
      else if datainlen > lds_e_datalen datain datainlen offset then
        some ((datain.drop
          (offset + lds_e_idlen datain offset + lds_e_fieldlen datain datainlen offset)).take
            (lds_e_datalen datain datainlen offset))
      else none
    else
      lds_scan datain datainlen tag1 tag2 twobytetag skiptagcount
        (lds_step datain datainlen offset) skipcounter
  else none
termination_by datainlen - offset
decreasing_by
  all_goals
    unfold lds_step lds_e_idlen emrtd_lds_determine_tag_length
    split
    all_goals omega

/-- Embedding of emrtd_lds_get_data_by_tag (lines 646-688): when
entertoptag is set, first hop over the outer tag and its length field
(without recursing into nested structures), then scan linearly. -/
def emrtd_lds_get_data_by_tag (datain : List Nat) (datainlen : Nat) (tag1 tag2 : Nat)
    (twobytetag entertoptag : Bool) (skiptagcount : Nat) : Option (List Nat) :=
  lds_scan datain datainlen tag1 tag2 twobytetag skiptagcount
    (if entertoptag then
      emrtd_lds_determine_tag_length (datain.getD 0 0) +
        emrtd_get_asn1_field_length datain datainlen
          (emrtd_lds_determine_tag_length (datain.getD 0 0))
    else 0) 0

/-- Tail of emrtd_do_bac (lines 882-904) after the EXTERNAL AUTHENTICATE
exchange, parametrised over 3DES-CBC decryption and SHA-1: decrypt the
32-byte response, compare bytes 8 .. 16 of the plaintext with RND.IFD
(memcmp at line 886 reads dec_output + 8), on mismatch fail before any
session key is produced; on match take K.ICC from bytes 16 .. 32, XOR it
with K.IFD into the session seed and derive the session keys.  Returns
(ks_enc, ks_mac, k_icc) on success. -/
def emrtd_do_bac_post (sha1 : List Nat → List Nat) (des3dec : List Nat → List Nat → List Nat)
    (kenc rnd_ifd k_ifd response : List Nat) : Option (List Nat × List Nat × List Nat) :=
  let dec_output := des3dec kenc (response.take 32)
  if rnd_ifd.take 8 = (dec_output.drop 8).take 8 then
    let k_icc := (dec_output.drop 16).take 16
    let kseed := List.zipWith (fun x y => x ^^^ y) (k_ifd.take 16) k_icc
    let ks_enc := emrtd_deskey sha1 kseed KENC_type 16
    let ks_mac := emrtd_deskey sha1 kseed KMAC_type 16
    some (ks_enc, ks_mac, k_icc)
  else none

/-- ISO 9797-1 padding method 2 as the spec words it: append 0x80, then
zero-pad until the length is a multiple of 8.  Written from the spec text,
to be compared with pad_block. -/
def pad_method2 (input : List Nat) : List Nat :=
  (input ++ [0x80]) ++ List.replicate ((8 - (input ++ [0x80]).length % 8) % 8) 0

/-- CBC chaining as the spec words it: encrypt the XOR of the chaining
value and the current block, block by block.  Written from the spec text. -/
def cbc_mac_chain (desE : List Nat → List Nat → List Nat) (k0 : List Nat) :
    List Nat → List (List Nat) → List Nat
  | iv, [] => iv
  | iv, b :: bs => cbc_mac_chain desE k0 (desE k0 (xorBlock iv b)) bs

/-- ISO 9797-1 Algorithm 3 as the spec words it: method-2 padding, CBC
chain under K0 from an all-zero IV, then DES-decrypt under K1 and
DES-encrypt under K0.  Written from the spec text, to be compared with
retail_mac. -/
def retail_mac_spec (desE desD : List Nat → List Nat → List Nat)
    (key msg : List Nat) : List Nat :=
  desE (key.take 8)
    (desD ((key.drop 8).take 8)
      (cbc_mac_chain desE (key.take 8) (List.replicate 8 0) (toBlocks (pad_method2 msg))))

/-- Characters of the MRZ alphabet, as character codes: uppercase letters,
lowercase letters, the filler < (60), and digits. -/
def isMrzChar (d : Nat) : Prop :=
  (65 ≤ d ∧ d ≤ 90) ∨ (97 ≤ d ∧ d ≤ 122) ∨ d = 60 ∨ (48 ≤ d ∧ d ≤ 57)

instance (d : Nat) : Decidable (isMrzChar d) := by
  unfold isMrzChar
  infer_instance

/-! Helper lemmas. -/

theorem lor_double_double (x y : Nat) : (2 * x) ||| (2 * y) = 2 * (x ||| y) := by
  have h := Nat.lor_bit false x false y
  simpa [Nat.bit_val, Nat.mul_comm] using h

theorem lor_double_double_add_one (x y : Nat) : (2 * x) ||| (2 * y + 1) = 2 * (x ||| y) + 1 := by
  have h := Nat.lor_bit false x true y
  simpa [Nat.bit_val, Nat.mul_comm] using h

theorem shiftLeft_lor_eq_add (k a b : Nat) (h : b < 2 ^ k) :
    (a <<< k) ||| b = a * 2 ^ k + b := by
  induction k generalizing a b with
  | zero =>
    interval_cases b
    simp [Nat.shiftLeft_eq]
  | succ k ih =>
    have hb2 : b / 2 < 2 ^ k := by
      have hp : (2 : Nat) ^ (k + 1) = 2 ^ k * 2 := by ring
      omega
    have h1 : a <<< (k + 1) = 2 * (a <<< k) := by
      simp [Nat.shiftLeft_eq, Nat.pow_succ]
      ring
    have hpow : (2 : Nat) ^ (k + 1) = 2 ^ k * 2 := by ring
    rcases Nat.mod_two_eq_zero_or_one b with hm | hm
    · have h2 : b = 2 * (b / 2) := by omega
      rw [h1, h2, lor_double_double, ih a _ hb2]
      omega
    · have h2 : b = 2 * (b / 2) + 1 := by omega
      rw [h1, h2, lor_double_double_add_one, ih a _ hb2]
      omega

/-! C3 -/

/-- C3: the spec claims emrtd_bump_ssc is a full big-endian increment with
wraparound, so that incrementing FF FF FF FF FF FF FF FF yields eight zero
bytes.  The loop in the code stops at index 1 and never carries into byte
0: on the all-FF counter it produces FF 00 00 00 00 00 00 00, and on
00 FF FF FF FF FF FF FF it produces eight zero bytes where a big-endian
increment yields 01 00 00 00 00 00 00 00.  The 00...00 to 00...01 half of
the claim does hold. -/
theorem bump_ssc_never_carries_into_byte0 :
    emrtd_bump_ssc (List.replicate 8 0xFF) = 0xFF :: List.replicate 7 0 ∧
    emrtd_bump_ssc (0 :: List.replicate 7 0xFF) = List.replicate 8 0 ∧
    emrtd_bump_ssc (List.replicate 8 0) = [0, 0, 0, 0, 0, 0, 0, 1] := by
  refine ⟨?_, ?_, ?_⟩ <;> rfl

/-! C6 -/

theorem lor16_lor8_eq (b1 b2 b3 : Nat) (hb2 : b2 < 256) (hb3 : b3 < 256) :
    ((b1 <<< 16) ||| (b2 <<< 8)) ||| b3 = 65536 * b1 + 256 * b2 + b3 := by
  have p8 : (2 : Nat) ^ 8 = 256 := by norm_num
  have p16 : (2 : Nat) ^ 16 = 65536 := by norm_num
  have e1 : (b1 <<< 16) ||| (b2 <<< 8) = b1 * 65536 + b2 * 256 := by
    rw [Nat.shiftLeft_eq b2 8, p8]
    rw [shiftLeft_lor_eq_add 16 b1 (b2 * 256) (by rw [p16]; omega)]
    rw [p16]
  have e2 : b1 * 65536 + b2 * 256 = (b1 * 256 + b2) <<< 8 := by
    rw [Nat.shiftLeft_eq, p8]
    ring
  rw [e1, e2, shiftLeft_lor_eq_add 8 (b1 * 256 + b2) b3 (by rw [p8]; omega), p8]
  ring

/-- C6: case analysis of emrtd_get_asn1_data_length.  A length byte up to
0x7F is the length itself; exactly 0x80 yields the buffer length the
caller passed (the ICAO indefinite-length workaround); 0x81, 0x82, 0x83
read the next 1, 2 or 3 bytes big-endian; 0x84 and above fall through to
the sentinel 0 (the C code returns false).  The three concrete instances
the spec names are included. -/
theorem asn1_data_length_cases (datain : List Nat) (datainlen offset : Nat)
    (h2 : datain.getD (offset + 2) 0 < 256) (h3 : datain.getD (offset + 3) 0 < 256) :
    (datain.getD offset 0 ≤ 0x7f →
      emrtd_get_asn1_data_length datain datainlen offset = datain.getD offset 0) ∧
    (datain.getD offset 0 = 0x80 →
      emrtd_get_asn1_data_length datain datainlen offset = datainlen) ∧
    (datain.getD offset 0 = 0x81 →
      emrtd_get_asn1_data_length datain datainlen offset = datain.getD (offset + 1) 0) ∧
    (datain.getD offset 0 = 0x82 →
      emrtd_get_asn1_data_length datain datainlen offset =
        256 * datain.getD (offset + 1) 0 + datain.getD (offset + 2) 0) ∧
    (datain.getD offset 0 = 0x83 →
      emrtd_get_asn1_data_length datain datainlen offset =
        65536 * datain.getD (offset + 1) 0 + 256 * datain.getD (offset + 2) 0 +
          datain.getD (offset + 3) 0) ∧
    (0x84 ≤ datain.getD offset 0 →
      emrtd_get_asn1_data_length datain datainlen offset = 0) ∧
    emrtd_get_asn1_data_length [0x30, 0x7F] 2 1 = 127 ∧
    emrtd_get_asn1_data_length [0x30, 0x81, 0x90] 3 1 = 144 ∧
    emrtd_get_asn1_data_length [0x30, 0x82, 0x01, 0x00] 4 1 = 256 := by
  refine ⟨?_, ?_, ?_, ?_, ?_, ?_, by rfl, by rfl, by rfl⟩ <;>
    intro h <;>
    unfold emrtd_get_asn1_data_length <;>
    split_ifs <;>
    first
      | rfl
      | omega
      | (rw [shiftLeft_lor_eq_add 8 _ _ (by omega)]; omega)
      | (rw [lor16_lor8_eq _ _ _ h2 h3])

/-- Witness for asn1_data_length_cases: the 0x82 branch evaluated on the
concrete buffer 30 82 01 00 gives 256. -/
theorem asn1_data_length_cases_witness :
    emrtd_get_asn1_data_length [0x30, 0x82, 0x01, 0x00] 4 1 = 256 := by
  have h := asn1_data_length_cases [0x30, 0x82, 0x01, 0x00] 4 1 (by decide) (by decide)
  simpa using h.2.2.2.1 (by decide)

/-! C10 -/

theorem mrz_char_value_bounds (d : Nat) (h : isMrzChar d) :
    0 ≤ mrz_char_value d ∧ mrz_char_value d ≤ 35 := by
  unfold isMrzChar at h
  unfold mrz_char_value
  split_ifs <;> omega

theorem mrz_weight_bounds (i : Nat) : 1 ≤ mrz_weight i ∧ mrz_weight i ≤ 7 := by
  unfold mrz_weight
  split_ifs <;> omega

theorem check_digit_sum_nonneg (data : List Nat) (i : Nat)
    (h : ∀ d ∈ data, isMrzChar d) : 0 ≤ check_digit_sum data i := by
  induction data generalizing i with
  | nil => simp [check_digit_sum]
  | cons d rest ih =>
    have hd : isMrzChar d := h d (by simp)
    have h1 := mrz_char_value_bounds d hd
    have h2 := mrz_weight_bounds i
    have h3 := ih (i + 1) (fun x hx => h x (by simp [hx]))
    have h4 : 0 ≤ mrz_char_value d * mrz_weight i := mul_nonneg h1.1 (by omega)
    simp only [check_digit_sum]
    omega

/-- C10: over the MRZ alphabet the check digit is the numeric value 0 .. 9
(not an ASCII digit: emrtd_compare_check_digit adds 0x30 before comparing
with the MRZ character), and a lowercase letter gets the same value
10 .. 35 as the corresponding uppercase letter. -/
theorem check_digit_numeric_value (data : List Nat) (e : Nat)
    (h : ∀ d ∈ data, isMrzChar d) :
    (0 ≤ emrtd_calculate_check_digit data ∧ emrtd_calculate_check_digit data ≤ 9) ∧
    (∀ c : Nat, 97 ≤ c → c ≤ 122 →
      mrz_char_value c = mrz_char_value (c - 32) ∧
      10 ≤ mrz_char_value c ∧ mrz_char_value c ≤ 35) ∧
    (emrtd_compare_check_digit data e = true ↔
      (e : Int) = emrtd_calculate_check_digit data + 48) := by
  have hnn := check_digit_sum_nonneg data 0 h
  have hcd : emrtd_calculate_check_digit data = check_digit_sum data 0 % 10 := by
    unfold emrtd_calculate_check_digit
    exact Int.tmod_eq_emod hnn (by norm_num)
  have hb : 0 ≤ emrtd_calculate_check_digit data ∧ emrtd_calculate_check_digit data ≤ 9 := by
    rw [hcd]
    constructor
    · exact Int.emod_nonneg _ (by norm_num)
    · have := Int.emod_lt_of_pos (check_digit_sum data 0) (show (0 : Int) < 10 by norm_num)
      omega
  refine ⟨hb, ?_, ?_⟩
  · intro c h1 h2
    unfold mrz_char_value
    split_ifs <;> omega
  · unfold emrtd_compare_check_digit
    simp only [beq_iff_eq]
    omega

/-- Witness for check_digit_numeric_value: the check digit of the single
character D (value 13, weight 7, sum 91) is 1, and the compare helper
accepts the ASCII digit 1 (0x31). -/
theorem check_digit_numeric_value_witness : emrtd_compare_check_digit [68] 49 = true := by
  have h := check_digit_numeric_value [68] 49 (by decide)
  exact h.2.2.mpr (by decide)

/-! C5 -/

theorem popcount_pos_eq (n : Nat) (h : 0 < n) :
    popcount n = n % 2 + popcount (n / 2) := by
  cases n with
  | zero => omega
  | succ m => simp [popcount]

theorem set_parity_byte_odd (b : Nat) : popcount (set_parity_byte b) % 2 = 1 := by
  unfold set_parity_byte
  rcases Nat.mod_two_eq_zero_or_one (popcount (b / 2)) with hs | hs
  · rw [hs, show 2 * (b / 2) + (1 - 0) = 2 * (b / 2) + 1 by omega]
    rw [popcount_pos_eq _ (by omega)]
    rw [show (2 * (b / 2) + 1) % 2 = 1 by omega, show (2 * (b / 2) + 1) / 2 = b / 2 by omega]
    omega
  · have hq : 0 < b / 2 := by
      by_contra hq0
      have hz : b / 2 = 0 := by omega
      rw [hz] at hs
      simp [popcount] at hs
    rw [hs, show 2 * (b / 2) + (1 - 1) = 2 * (b / 2) by omega]
    rw [popcount_pos_eq _ (by omega)]
    rw [show (2 * (b / 2)) % 2 = 0 by omega, show (2 * (b / 2)) / 2 = b / 2 by omega]
    omega

theorem deskey_eq (sha1 : List Nat → List Nat) (seed t : List Nat) :
    emrtd_deskey sha1 seed t 16 =
      ((sha1 (seed.take 16 ++ t.take 4)).take 16).map set_parity_byte := by
  simp only [emrtd_deskey]
  norm_num
  rw [List.take_append_eq_append_take, List.take_take]
  norm_num
  omega

/-- C5: emrtd_deskey is the pure function taking the first 16 bytes of
SHA-1 of seed followed by the 4-byte constant (00000001 for KENC, 00000002
for KMAC) with every byte forced to odd parity; deriving twice from the
same seed trivially yields the same bytes since the function is pure. -/
theorem deskey_sha1_parity (sha1 : List Nat → List Nat) (seed : List Nat)
    (hs : seed.length = 16) :
    emrtd_deskey sha1 seed KENC_type 16 =
      ((sha1 (seed ++ [0x00, 0x00, 0x00, 0x01])).take 16).map set_parity_byte ∧
    emrtd_deskey sha1 seed KMAC_type 16 =
      ((sha1 (seed ++ [0x00, 0x00, 0x00, 0x02])).take 16).map set_parity_byte ∧
    (∀ b : Nat, popcount (set_parity_byte b) % 2 = 1) ∧
    emrtd_deskey sha1 seed KENC_type 16 = emrtd_deskey sha1 seed KENC_type 16 := by
  have htake : seed.take 16 = seed := List.take_of_length_le (by omega)
  refine ⟨?_, ?_, set_parity_byte_odd, rfl⟩
  · rw [deskey_eq, htake]
    rfl
  · rw [deskey_eq, htake]
    rfl

/-- Witness for deskey_sha1_parity at the identity hash and the zero
seed. -/
theorem deskey_sha1_parity_witness :
    emrtd_deskey (fun x => x) (List.replicate 16 0) KENC_type 16 =
      (((List.replicate 16 0 ++ [0x00, 0x00, 0x00, 0x01]).take 16)).map set_parity_byte := by
  have h := deskey_sha1_parity (fun x => x) (List.replicate 16 0) (by decide)
  simpa using h.1

/-! C4 -/

theorem pad_block_eq_pad_method2 (input : List Nat) :
    pad_block input = pad_method2 input := by
  unfold pad_block pad_method2
  have h : (8 - (input ++ [0x80]).length % 8) % 8 = 8 - input.length % 8 - 1 := by
    simp only [List.length_append, List.length_cons, List.length_nil]
    omega
  rw [h, List.append_assoc]
  rfl

theorem cbc_fold_eq_chain (desE : List Nat → List Nat → List Nat) (k0 : List Nat)
    (hE : ∀ k b, (desE k b).length = 8) (bs : List (List Nat)) (iv : List Nat) :
    bs.foldl (fun intermediate block => (desE k0 (xorBlock intermediate block)).take 8) iv
      = cbc_mac_chain desE k0 iv bs := by
  induction bs generalizing iv with
  | nil => rfl
  | cons b rest ih =>
    simp only [List.foldl_cons, cbc_mac_chain]
    rw [List.take_of_length_le (le_of_eq (hE _ _))]
    exact ih _

/-- C4: retail_mac agrees with the spec description of ISO 9797-1
Algorithm 3 for every message and every pair of 8-byte block ciphers:
method-2 padding is applied unconditionally (pad_block equals the
spec-worded pad_method2), the blocks are CBC-chained under K0 from a zero
IV, the final chaining value gets DES-decrypt under K1 then DES-encrypt
under K0, and the output is 8 bytes. -/
theorem retail_mac_matches_spec (desE desD : List Nat → List Nat → List Nat)
    (key input : List Nat)
    (hE : ∀ k b, (desE k b).length = 8) (hD : ∀ k b, (desD k b).length = 8) :
    retail_mac desE desD key input = retail_mac_spec desE desD key input ∧
    (retail_mac desE desD key input).length = 8 ∧
    pad_block input = pad_method2 input := by
  refine ⟨?_, ?_, pad_block_eq_pad_method2 input⟩
  · simp only [retail_mac, retail_mac_spec]
    rw [cbc_fold_eq_chain desE (key.take 8) hE]
    rw [List.take_of_length_le (le_of_eq (hD _ _))]
    rw [List.take_of_length_le (le_of_eq (hE _ _))]
    rw [pad_block_eq_pad_method2]
  · simp only [retail_mac]
    rw [List.length_take, hE]
    omega

/-- Witness for retail_mac_matches_spec at constant block ciphers. -/
theorem retail_mac_matches_spec_witness :
    retail_mac (fun _ b => List.replicate 8 (b.length % 256)) (fun _ _ => List.replicate 8 1)
        (List.replicate 16 0) [0x01, 0x02] =
      retail_mac_spec (fun _ b => List.replicate 8 (b.length % 256)) (fun _ _ => List.replicate 8 1)
        (List.replicate 16 0) [0x01, 0x02] := by
  have h := retail_mac_matches_spec (fun _ b => List.replicate 8 (b.length % 256))
    (fun _ _ => List.replicate 8 1) (List.replicate 16 0) [0x01, 0x02]
    (fun _ _ => by simp) (fun _ _ => by simp)
  exact h.1

/-! C7 -/

theorem getD_drop_zero (l : List Nat) (o k : Nat) :
    (l.drop o).getD k 0 = l.getD (o + k) 0 := by
  simp [List.getD_eq_getElem?_getD, List.getElem?_drop]

theorem lds_scan_step_skip (datain : List Nat) (datainlen tag1 tag2 : Nat) (tb : Bool)
    (sk offset c : Nat) (hoff : offset < datainlen)
    (hm : datain.getD offset 0 = tag1 ∧ (tb = false ∨ datain.getD (offset + 1) 0 = tag2))
    (hc : c < sk) :
    lds_scan datain datainlen tag1 tag2 tb sk offset c =
      lds_scan datain datainlen tag1 tag2 tb sk (lds_step datain datainlen offset) (c + 1) := by
  rw [lds_scan, dif_pos hoff, if_pos hm, if_pos hc]

theorem lds_scan_step_return (datain : List Nat) (datainlen tag1 tag2 : Nat) (tb : Bool)
    (sk offset c : Nat) (hoff : offset < datainlen)
    (hm : datain.getD offset 0 = tag1 ∧ (tb = false ∨ datain.getD (offset + 1) 0 = tag2))
    (hc : ¬ c < sk) (hb : datainlen > lds_e_datalen datain datainlen offset) :
    lds_scan datain datainlen tag1 tag2 tb sk offset c =
      some ((datain.drop
        (offset + lds_e_idlen datain offset + lds_e_fieldlen datain datainlen offset)).take
          (lds_e_datalen datain datainlen offset)) := by
  rw [lds_scan, dif_pos hoff, if_pos hm, if_neg hc, if_pos hb]

theorem lds_scan_not_found (datain : List Nat) (datainlen tag1 tag2 : Nat) (tb : Bool)
    (sk : Nat) (hlen : datainlen ≤ datain.length) (habs : ∀ b ∈ datain, b ≠ tag1)
    (offset c : Nat) : lds_scan datain datainlen tag1 tag2 tb sk offset c = none := by
  by_cases hoff : offset < datainlen
  · have hofflt : offset < datain.length := lt_of_lt_of_le hoff hlen
    have hmem : datain.getD offset 0 ∈ datain := by
      rw [List.getD_eq_getElem?_getD, List.getElem?_eq_getElem hofflt]
      exact List.getElem_mem hofflt
    have hne := habs _ hmem
    rw [lds_scan, dif_pos hoff, if_neg (fun hand => hne hand.1)]
    exact lds_scan_not_found datain datainlen tag1 tag2 tb sk hlen habs _ c
  · rw [lds_scan, dif_neg hoff]
termination_by datainlen - offset
decreasing_by
  unfold lds_step lds_e_idlen emrtd_lds_determine_tag_length
  split
  all_goals omega

theorem lds_two_elements (d1 d2 : List Nat) (h1 : d1.length ≤ 0x7f) (h2 : d2.length ≤ 0x7f) :
    emrtd_lds_get_data_by_tag (0x30 :: d1.length :: (d1 ++ 0x30 :: d2.length :: d2))
        (d1.length + d2.length + 4) 0x30 0 false false 1 = some d2 := by
  set buf := 0x30 :: d1.length :: (d1 ++ 0x30 :: d2.length :: d2) with hbuf
  set L := d1.length + d2.length + 4 with hL
  have f0 : buf.getD 0 0 = 0x30 := rfl
  have fid0 : lds_e_idlen buf 0 = 1 := rfl
  have fdat0 : lds_e_datalen buf L 0 = d1.length := by
    unfold lds_e_datalen
    rw [fid0, List.drop_zero]
    unfold emrtd_get_asn1_data_length
    have hg : buf.getD 1 0 = d1.length := rfl
    rw [hg, if_pos h1]
  have ffld0 : lds_e_fieldlen buf L 0 = 1 := by
    unfold lds_e_fieldlen
    rw [fid0, List.drop_zero]
    unfold emrtd_get_asn1_field_length
    have hg : buf.getD 1 0 = d1.length := rfl
    rw [hg, if_pos (by omega : d1.length ≤ 0x80)]
  have step0 : lds_step buf L 0 = d1.length + 2 := by
    unfold lds_step
    rw [fid0, fdat0, ffld0]
    omega
  have hdrop : buf.drop (d1.length + 2) = 0x30 :: d2.length :: d2 := by
    rw [hbuf, show d1.length + 2 = d1.length + 1 + 1 by omega]
    rw [List.drop_succ_cons, List.drop_succ_cons]
    exact List.drop_left d1 _
  have fget1 : buf.getD (d1.length + 2) 0 = 0x30 := by
    have h := getD_drop_zero buf (d1.length + 2) 0
    rw [hdrop] at h
    simpa using h.symm
  have fid1 : lds_e_idlen buf (d1.length + 2) = 1 := by
    unfold lds_e_idlen
    rw [fget1]
    rfl
  have fdat1 : lds_e_datalen buf L (d1.length + 2) = d2.length := by
    unfold lds_e_datalen
    rw [fid1, hdrop]
    unfold emrtd_get_asn1_data_length
    have hg : (0x30 :: d2.length :: d2).getD 1 0 = d2.length := rfl
    rw [hg, if_pos h2]
  have ffld1 : lds_e_fieldlen buf L (d1.length + 2) = 1 := by
    unfold lds_e_fieldlen
    rw [fid1, hdrop]
    unfold emrtd_get_asn1_field_length
    have hg : (0x30 :: d2.length :: d2).getD 1 0 = d2.length := rfl
    rw [hg, if_pos (by omega : d2.length ≤ 0x80)]
  have hfinal : buf.drop (d1.length + 2 + 1 + 1) = d2 := by
    have h := List.drop_drop 2 (d1.length + 2) buf
    rw [hdrop] at h
    rw [show d1.length + 2 + 1 + 1 = d1.length + 2 + 2 by omega, ← h]
    rfl
  unfold emrtd_lds_get_data_by_tag
  norm_num
  rw [lds_scan_step_skip buf L 0x30 0 false 1 0 0 (by omega) ⟨f0, Or.inl rfl⟩ (by omega)]
  rw [step0]
  rw [lds_scan_step_return buf L 0x30 0 false 1 (d1.length + 2) 1 (by omega)
    ⟨fget1, Or.inl rfl⟩ (by omega) (by rw [fdat1]; omega)]
  rw [fid1, ffld1, fdat1, hfinal]
  rw [List.take_length]

theorem lds_two_elements_first (d1 d2 : List Nat) (h1 : d1.length ≤ 0x7f)
    (h2 : d2.length ≤ 0x7f) :
    emrtd_lds_get_data_by_tag (0x30 :: d1.length :: (d1 ++ 0x30 :: d2.length :: d2))
        (d1.length + d2.length + 4) 0x30 0 false false 0 = some d1 := by
  set buf := 0x30 :: d1.length :: (d1 ++ 0x30 :: d2.length :: d2) with hbuf
  set L := d1.length + d2.length + 4 with hL
  have f0 : buf.getD 0 0 = 0x30 := rfl
  have fid0 : lds_e_idlen buf 0 = 1 := rfl
  have fdat0 : lds_e_datalen buf L 0 = d1.length := by
    unfold lds_e_datalen
    rw [fid0, List.drop_zero]
    unfold emrtd_get_asn1_data_length
    have hg : buf.getD 1 0 = d1.length := rfl
    rw [hg, if_pos h1]
  have ffld0 : lds_e_fieldlen buf L 0 = 1 := by
    unfold lds_e_fieldlen
    rw [fid0, List.drop_zero]
    unfold emrtd_get_asn1_field_length
    have hg : buf.getD 1 0 = d1.length := rfl
    rw [hg, if_pos (by omega : d1.length ≤ 0x80)]
  unfold emrtd_lds_get_data_by_tag
  norm_num
  rw [lds_scan_step_return buf L 0x30 0 false 0 0 0 (by omega) ⟨f0, Or.inl rfl⟩
    (by omega) (by rw [fdat0]; omega)]
  rw [fid0, ffld0, fdat0]
  have hdrop2 : buf.drop (0 + 1 + 1) = d1 ++ 0x30 :: d2.length :: d2 := rfl
  rw [hdrop2]
  rw [List.take_left]

/-- C7: the TLV lookup scans top-level elements linearly and skips the
first skiptagcount elements with the requested tag: on a buffer holding two
sequential short-form 0x30 elements, skiptagcount 1 returns the second
value and skiptagcount 0 the first; when the requested tag occurs nowhere
in the buffer the lookup fails with none, for any skip count and with or
without the outer-container hop. -/
theorem lds_get_data_by_tag_skip_and_missing (d1 d2 datain : List Nat)
    (datainlen tag1 tag2 : Nat) (tb et : Bool) (sk : Nat)
    (h1 : d1.length ≤ 0x7f) (h2 : d2.length ≤ 0x7f)
    (hlen : datainlen ≤ datain.length) (habs : ∀ b ∈ datain, b ≠ tag1) :
    emrtd_lds_get_data_by_tag (0x30 :: d1.length :: (d1 ++ 0x30 :: d2.length :: d2))
        (d1.length + d2.length + 4) 0x30 0 false false 1 = some d2 ∧
    emrtd_lds_get_data_by_tag (0x30 :: d1.length :: (d1 ++ 0x30 :: d2.length :: d2))
        (d1.length + d2.length + 4) 0x30 0 false false 0 = some d1 ∧
    emrtd_lds_get_data_by_tag datain datainlen tag1 tag2 tb et sk = none := by
  refine ⟨lds_two_elements d1 d2 h1 h2, lds_two_elements_first d1 d2 h1 h2, ?_⟩
  unfold emrtd_lds_get_data_by_tag
  exact lds_scan_not_found datain datainlen tag1 tag2 tb sk hlen habs _ 0

/-- Witness for lds_get_data_by_tag_skip_and_missing: a buffer with the
two elements 30 01 AA and 30 01 BB, and an empty buffer for the missing
tag. -/
theorem lds_get_data_by_tag_skip_and_missing_witness :
    emrtd_lds_get_data_by_tag [0x30, 0x01, 0xAA, 0x30, 0x01, 0xBB] 6 0x30 0 false false 1 =
        some [0xBB] ∧
    emrtd_lds_get_data_by_tag [] 0 0x30 0 false false 0 = none := by
  have h := lds_get_data_by_tag_skip_and_missing [0xAA] [0xBB] [] 0 0x30 0 false false 0
    (by decide) (by decide) (by decide) (by simp)
  exact ⟨h.1, h.2.2⟩

/-! C8 -/

theorem read_trace_sizes (offset readlen : Nat) :
    ∀ p ∈ read_trace offset readlen, 0 < p.2 ∧ p.2 ≤ 118 := by
  intro p hp
  by_cases h : readlen = 0
  · rw [read_trace, if_pos h] at hp
    simp at hp
  · rw [read_trace, if_neg h] at hp
    rcases List.mem_cons.mp hp with h1 | h1
    · subst h1
      simp only
      omega
    · exact read_trace_sizes _ _ p h1
termination_by readlen
decreasing_by omega

theorem read_trace_chain (offset readlen : Nat) :
    List.Chain' (fun a b : Nat × Nat => b.1 = a.1 + a.2) (read_trace offset readlen) := by
  by_cases h : readlen = 0
  · rw [read_trace, if_pos h]
    exact List.chain'_nil
  · rw [read_trace, if_neg h]
    rw [List.chain'_cons']
    constructor
    · intro y hy
      by_cases h2 : readlen - min readlen 118 = 0
      · rw [read_trace, if_pos h2] at hy
        simp at hy
      · rw [read_trace, if_neg h2] at hy
        simp only [List.head?_cons, Option.mem_def, Option.some.injEq] at hy
        rw [← hy]
    · exact read_trace_chain _ _
termination_by readlen
decreasing_by omega

theorem read_trace_sum (offset readlen : Nat) :
    ((read_trace offset readlen).map Prod.snd).sum = readlen := by
  by_cases h : readlen = 0
  · rw [read_trace, if_pos h]
    simp [h]
  · rw [read_trace, if_neg h]
    simp only [List.map_cons, List.sum_cons]
    rw [read_trace_sum (offset + min readlen 118) (readlen - min readlen 118)]
    omega
termination_by readlen
decreasing_by omega

theorem read_file_loop_isSome_iff (readFn : Nat → Nat → Option (List Nat))
    (offset readlen : Nat) (acc : List Nat) :
    (read_file_loop readFn offset readlen acc).isSome ↔
      ∀ p ∈ read_trace offset readlen, (readFn p.1 p.2).isSome := by
  by_cases h : readlen = 0
  · rw [read_file_loop, dif_pos h, read_trace, if_pos h]
    simp
  · rw [read_file_loop, dif_neg h, read_trace, if_neg h]
    cases hr : readFn offset (min readlen 118) with
    | none =>
      simp only [Option.isSome_none, Bool.false_eq_true, false_iff]
      intro hall
      have h1 := hall (offset, min readlen 118) (List.mem_cons_self _ _)
      rw [hr] at h1
      simp at h1
    | some chunk =>
      rw [read_file_loop_isSome_iff readFn (offset + min readlen 118)
        (readlen - min readlen 118) (acc ++ chunk)]
      constructor
      · intro hrest p hp
        rcases List.mem_cons.mp hp with h1 | h1
        · rw [h1, hr]
          simp
        · exact hrest p h1
      · intro hall p hp
        exact hall p (List.mem_cons_of_mem _ hp)
termination_by readlen
decreasing_by omega

/-- C8: emrtd_read_file probes 4 bytes at offset 0 (a probe failure aborts
with none), computes the declared length from the ASN.1 header, then reads
chunks exactly along read_trace: the whole read succeeds iff every traced
request succeeds (so any chunk failure aborts the whole file read); every
traced request asks for at least 1 and at most 118 bytes, consecutive
requests advance the offset by exactly the previous chunk size, the traced
sizes sum to the declared remaining length, and the first chunk after the
probe starts at offset 4. -/
theorem read_file_two_phases (readFn : Nat → Nat → Option (List Nat)) :
    (readFn 0 4 = none → emrtd_read_file readFn = none) ∧
    (∀ response, readFn 0 4 = some response →
      ((emrtd_read_file readFn).isSome ↔
        ∀ p ∈ read_trace 4
          (((emrtd_get_asn1_data_length response response.length 1 : Int) -
            (3 - (emrtd_get_asn1_field_length response response.length 1 : Int))).toNat),
          (readFn p.1 p.2).isSome)) ∧
    (∀ offset readlen, ∀ p ∈ read_trace offset readlen, 0 < p.2 ∧ p.2 ≤ 118) ∧
    (∀ offset readlen,
      List.Chain' (fun a b : Nat × Nat => b.1 = a.1 + a.2) (read_trace offset readlen)) ∧
    (∀ offset readlen, ((read_trace offset readlen).map Prod.snd).sum = readlen) ∧
    (∀ readlen, readlen ≠ 0 →
      read_trace 4 readlen =
        (4, min readlen 118) :: read_trace (4 + min readlen 118) (readlen - min readlen 118)) := by
  refine ⟨?_, ?_, read_trace_sizes, read_trace_chain, read_trace_sum, ?_⟩
  · intro h
    simp [emrtd_read_file, h]
  · intro response h
    unfold emrtd_read_file
    rw [h]
    exact read_file_loop_isSome_iff readFn 4 _ response
  · intro readlen h
    rw [read_trace, if_neg h]

/-- Witness for read_file_two_phases: a probe failure aborts the file
read. -/
theorem read_file_two_phases_witness : emrtd_read_file (fun _ _ => none) = none :=
  (read_file_two_phases (fun _ _ => none)).1 rfl

/-! C9 -/

/-- C9: every secure-messaging exchange advances the SSC twice, once
before the command MAC (in emrtd_secure_select_file and
_emrtd_secure_read_binary) and once inside emrtd_check_cc before the
response MAC is recomputed, so the final SSC is bump (bump ssc) whenever
the card answered, even when the MAC comparison then fails; a failed
exchange leaves the single pre-command bump, and emrtd_check_cc always
bumps once regardless of its comparison outcome. -/
theorem ssc_bumped_twice_per_exchange (desE desD : List Nat → List Nat → List Nat)
    (kmac key ssc rapdu : List Nat) (l : Nat) :
    (secure_read_binary desE desD (some rapdu) kmac ssc).1 =
      emrtd_bump_ssc (emrtd_bump_ssc ssc) ∧
    (emrtd_secure_select_file desE desD (some rapdu) kmac ssc).1 =
      emrtd_bump_ssc (emrtd_bump_ssc ssc) ∧
    (secure_read_binary desE desD none kmac ssc).1 = emrtd_bump_ssc ssc ∧
    (emrtd_secure_select_file desE desD none kmac ssc).1 = emrtd_bump_ssc ssc ∧
    (emrtd_check_cc desE desD ssc key rapdu l).1 = emrtd_bump_ssc ssc := by
  refine ⟨rfl, rfl, rfl, rfl, rfl⟩

/-! C2 -/

/-- Counterexample to C2 as stated: the code compares RND.IFD with bytes
8 .. 16 of the decrypted block (memcmp(rnd_ifd, dec_output + 8, 8)), not
with the first 8 bytes.  Taking the identity as 3DES decryption, a
response whose plaintext starts with 8 bytes that differ from RND.IFD but
carries RND.IFD at bytes 8 .. 16 makes the handshake succeed, while the
claim says it must fail. -/
theorem do_bac_counterexample :
    ((List.replicate 8 9 ++ List.replicate 8 1 ++ List.replicate 16 3).take 8 ≠
      List.replicate 8 1) ∧
    (emrtd_do_bac_post (fun x => x) (fun _ x => x) [] (List.replicate 8 1)
      (List.replicate 16 0)
      (List.replicate 8 9 ++ List.replicate 8 1 ++ List.replicate 16 3)).isSome = true := by
  decide

/-- C2 amended: after 3DES-CBC-decrypting the response body, bytes 8 .. 16
of the decrypted block must equal RND.IFD; a mismatch is fatal, failing
before any session key is produced, and on a match K.ICC is taken from
bytes 16 .. 32 of the decrypted block. -/
theorem do_bac_challenge_check (sha1 : List Nat → List Nat)
    (des3dec : List Nat → List Nat → List Nat) (kenc rnd_ifd k_ifd response : List Nat) :
    (rnd_ifd.take 8 ≠ ((des3dec kenc (response.take 32)).drop 8).take 8 →
      emrtd_do_bac_post sha1 des3dec kenc rnd_ifd k_ifd response = none) ∧
    (rnd_ifd.take 8 = ((des3dec kenc (response.take 32)).drop 8).take 8 →
      ∃ ks1 ks2, emrtd_do_bac_post sha1 des3dec kenc rnd_ifd k_ifd response =
        some (ks1, ks2, ((des3dec kenc (response.take 32)).drop 16).take 16)) := by
  constructor
  · intro h
    unfold emrtd_do_bac_post
    rw [if_neg h]
  · intro h
    unfold emrtd_do_bac_post
    rw [if_pos h]
    exact ⟨_, _, rfl⟩

/-- Witness for do_bac_challenge_check: a decrypted block whose bytes
8 .. 16 differ from RND.IFD fails the handshake. -/
theorem do_bac_challenge_check_witness :
    emrtd_do_bac_post (fun x => x) (fun _ x => x) [] (List.replicate 8 1)
      (List.replicate 16 0) (List.replicate 32 7) = none := by
  have h := do_bac_challenge_check (fun x => x) (fun _ x => x) [] (List.replicate 8 1)
    (List.replicate 16 0) (List.replicate 32 7)
  exact h.1 (by decide)

/-! C1 -/

/-- C1: when the trailing 8 bytes of a secure READ BINARY response do not
equal the retail MAC recomputed over the bumped SSC and the DO87 / DO99
prefix, the secure read-and-decrypt returns failure with the caller
buffer dataout unchanged (no decrypted bytes are written), and a file read
whose chunks all hit this failing response aborts with none. -/
theorem secure_read_mac_fail_no_output (desE desD des3dec : List Nat → List Nat → List Nat)
    (kenc kmac ssc dataout rapdu : List Nat) (btr : Nat)
    (hmac : ¬ ((retail_mac desE desD kmac
        (emrtd_check_cc_k (emrtd_bump_ssc (emrtd_bump_ssc ssc)) rapdu)).take 8 =
      (rapdu.drop (rapdu.length - 8)).take 8)) :
    secure_read_binary_decrypt desE desD des3dec (some rapdu) kenc kmac ssc btr dataout =
      (emrtd_bump_ssc (emrtd_bump_ssc ssc), false, dataout) ∧
    emrtd_read_file (fun _o _t =>
      match secure_read_binary_decrypt desE desD des3dec (some rapdu) kenc kmac ssc btr dataout with
      | (_, true, d) => some d
      | (_, false, _) => none) = none := by
  have hb : ((retail_mac desE desD kmac
      (emrtd_check_cc_k (emrtd_bump_ssc (emrtd_bump_ssc ssc)) rapdu)).take 8 ==
      (rapdu.drop (rapdu.length - 8)).take 8) = false := beq_eq_false_iff_ne.mpr hmac
  have hfail : secure_read_binary desE desD (some rapdu) kmac ssc =
      (emrtd_bump_ssc (emrtd_bump_ssc ssc), none) := by
    simp only [secure_read_binary, emrtd_check_cc, hb]
    rfl
  have hfirst : secure_read_binary_decrypt desE desD des3dec (some rapdu) kenc kmac ssc btr
      dataout = (emrtd_bump_ssc (emrtd_bump_ssc ssc), false, dataout) := by
    simp only [secure_read_binary_decrypt, hfail]
  refine ⟨hfirst, ?_⟩
  simp only [hfirst]
  rfl

/-- Witness for secure_read_mac_fail_no_output: constant block ciphers
make the recomputed MAC all-zero while the response trailer is all-one;
the read fails and the caller buffer [7] survives unchanged. -/
theorem secure_read_mac_fail_no_output_witness :
    secure_read_binary_decrypt (fun _ _ => List.replicate 8 0) (fun _ _ => List.replicate 8 0)
        (fun _ x => x) (some (List.replicate 16 1)) [] [] (List.replicate 8 0) 4 [7] =
      ([0, 0, 0, 0, 0, 0, 0, 2], false, [7]) := by
  have h := secure_read_mac_fail_no_output (fun _ _ => List.replicate 8 0)
    (fun _ _ => List.replicate 8 0) (fun _ x => x) [] [] (List.replicate 8 0) [7]
    (List.replicate 16 1) 4 (by decide)
  exact h.1

end Emrtd
